import Mathlib

/-!
# Locker Breaker solver engine — verification development

Shallow embedding of the Mastermind-style solver in
`src/lib/mastermind-solver.ts` (the current revision of the engine), together
with proofs of the specification claims about it.

Modelling conventions:
* A JS number array (`Guess`) is a `List ℕ`.
* `guess[i]` (which may be `undefined`) is `List.get? i`; the JS strict
  equality `guess[i] === secret[i]` is equality of the two `Option ℕ` values.
* JS string keys built with `join("-")`/`join(",")` are injective on the data
  they encode, so maps/sets keyed by them are modelled directly on the
  underlying lists; `Map`/`Set` insertion order is modelled by association
  lists that append new keys at the end.
* The module-level memoization cache stores only values that the pure
  computation would produce, so it is dropped from the model.
* JS floating-point arithmetic (entropy, `Math.log2`, `Math.round`) is
  modelled over `ℝ`; probabilities (ratios of group sizes) over `ℚ`.
-/

namespace LockerBreaker

/-- Per-slot feedback tag: `"correct" | "partial" | "wrong"` in the source.
The `partial` tag is renamed `partialMatch` (Lean keyword). -/
inductive SlotTag where
  | correct : SlotTag
  | partialMatch : SlotTag
  | wrong : SlotTag
deriving DecidableEq, Repr

/-- Aggregate feedback (`type Feedback` in the source); the source field
`partial` is renamed `partialCount` (Lean keyword). -/
structure Feedback where
  correct : ℕ
  partialCount : ℕ
deriving DecidableEq, Repr

/-- `type GameState` in the source. -/
structure GameState where
  guesses : List (List ℕ)
  feedbacks : List Feedback
  possibleSolutions : List (List ℕ)
deriving DecidableEq, Repr

/-- `generateAllCombinations`: all 4-digit combinations 0000 to 9999, in
loop order `i = 0 .. 9999`.  (The memoization cache is dropped: it only
replays the value computed here.) -/
def generateAllCombinations : List (List ℕ) :=
  (List.range 10000).map (fun i =>
    [i / 1000 % 10, i / 100 % 10, i / 10 % 10, i % 10])

/-- First pass of `calculateSlotBySlotFeedback`: the set `correctPositions`
of indices `i < 4` with `guess[i] === secret[i]`. -/
def correctPositions (guess secret : List ℕ) : List ℕ :=
  (List.range 4).filter (fun i => guess[i]? == secret[i]?)

/-- `calculateSlotBySlotFeedback`: slot-by-slot feedback of `guess` against
`secret`.  Slot `i` is `correct` when `guess[i] === secret[i]`; otherwise the
second pass counts `totalInSecret` (occurrences of `guess[i]` in `secret`)
and `correctGuesses` (indices of `guess` holding the same digit that are in
`correctPositions`) and marks `wrong` when `totalInSecret === 0` or
`totalInSecret <= correctGuesses`, else `partial`. -/
def calculateSlotBySlotFeedback (guess secret : List ℕ) : List SlotTag :=
  (List.range 4).map (fun i =>
    if guess[i]? == secret[i]? then
      SlotTag.correct
    else
      let guessDigit := guess[i]?
      let totalInSecret := (secret.filter (fun d => some d == guessDigit)).length
      let correctGuesses := ((List.range guess.length).filter (fun idx =>
        guess[idx]? == guessDigit && (correctPositions guess secret).contains idx)).length
      if totalInSecret = 0 then SlotTag.wrong
      else if totalInSecret ≤ correctGuesses then SlotTag.wrong
      else SlotTag.partialMatch)

/-- `convertSlotFeedback`: count the `correct` and `partial` tags. -/
def convertSlotFeedback (slotFeedback : List SlotTag) : Feedback :=
  { correct := (slotFeedback.filter (fun f => f == SlotTag.correct)).length
    partialCount := (slotFeedback.filter (fun f => f == SlotTag.partialMatch)).length }

/-- The JS test `actualFeedback.every((feedback, i) => feedback === slotFeedback[i])`:
every index of `actual` holds the same tag as `slotFeedback` there (comparison
against `undefined` is `false`, i.e. `none ≠ some _`). -/
def slotFeedbackMatches (actual slotFeedback : List SlotTag) : Bool :=
  (List.range actual.length).all (fun i => actual[i]? == slotFeedback[i]?)

/-- `filterSolutionsSlotBySlot`: keep the solutions whose feedback for `guess`
agrees with `slotFeedback`. -/
def filterSolutionsSlotBySlot (possibleSolutions : List (List ℕ))
    (guess : List ℕ) (slotFeedback : List SlotTag) : List (List ℕ) :=
  possibleSolutions.filter (fun solution =>
    slotFeedbackMatches (calculateSlotBySlotFeedback guess solution) slotFeedback)

/-! ### Spec-side definitions for claim C1 (refinement target)

These two definitions follow the wording of the specification (§4.1,
duplicate-aware rule), to be compared with `calculateSlotBySlotFeedback`
above, which is translated from the source. -/

/-- Spec wording: "how many times that same digit has already been marked
Correct elsewhere in the guess" — the number of positions `j` where the guess
holds digit `d` and placed it correctly. -/
def correctlyPlacedCount (guess secret : List ℕ) (d : ℕ) : ℕ :=
  ((List.range 4).filter (fun j =>
    guess[j]? == some d && guess[j]? == secret[j]?)).length

/-- Spec wording for the duplicate-aware feedback rule: slot `i` is Correct
exactly when `guess[i]` equals `secret[i]`; otherwise Wrong when the slot's
digit occurs zero times in the secret or no more times than
`correctlyPlacedCount`, and Partial otherwise. -/
def specSlotTag (guess secret : List ℕ) (i : ℕ) : SlotTag :=
  if guess[i]? == secret[i]? then SlotTag.correct
  else if (secret.count (guess.getD i 0) = 0 ∨
      secret.count (guess.getD i 0) ≤ correctlyPlacedCount guess secret (guess.getD i 0)) then
    SlotTag.wrong
  else SlotTag.partialMatch

/-- **C1.** For 4-digit codes, `calculateSlotBySlotFeedback` marks slot `i`
Correct exactly when `guess[i] = secret[i]`, marks every other slot Wrong when
the slot's digit occurs zero times in the secret or no more times than the
number of positions where the guess placed that digit correctly, and marks it
Partial otherwise — i.e. the function agrees slot by slot with the spec rule
`specSlotTag`. -/
theorem calculateSlotBySlotFeedback_eq_spec (guess secret : List ℕ)
    (hg : guess.length = 4) (hs : secret.length = 4) :
    calculateSlotBySlotFeedback guess secret =
      (List.range 4).map (fun i => specSlotTag guess secret i) := by
  unfold calculateSlotBySlotFeedback
  apply List.map_congr_left
  intro i hi
  have hi4 : i < 4 := List.mem_range.mp hi
  have hget : guess[i]? = some (guess.getD i 0) := by
    rw [List.getD_eq_getElem?_getD]
    cases h : guess[i]? with
    | none => exact absurd (List.getElem?_eq_none_iff.mp h) (by omega)
    | some v => rfl
  by_cases hc : guess[i]? = secret[i]?
  · have hcb : (guess[i]? == secret[i]?) = true := beq_iff_eq.mpr hc
    simp only [specSlotTag, hcb, if_true]
  · have hcb : (guess[i]? == secret[i]?) = false := beq_eq_false_iff_ne.mpr hc
    simp only [specSlotTag, hcb, Bool.false_eq_true, if_false]
    have htot : (secret.filter (fun d => some d == guess[i]?)).length =
        secret.count (guess.getD i 0) := by
      rw [List.count_eq_countP, List.countP_eq_length_filter]
      congr 1
      apply List.filter_congr
      intro x _
      rw [hget, Option.some_beq_some]
    have hcg : ((List.range guess.length).filter (fun idx =>
        guess[idx]? == guess[i]? &&
          (correctPositions guess secret).contains idx)).length =
        correctlyPlacedCount guess secret (guess.getD i 0) := by
      rw [hg, correctlyPlacedCount]
      congr 1
      apply List.filter_congr
      intro j hj
      have hj4 : j < 4 := List.mem_range.mp hj
      have hcont : (correctPositions guess secret).contains j =
          (guess[j]? == secret[j]?) := by
        rw [Bool.eq_iff_iff]
        simp [correctPositions, List.mem_filter, hj4]
      rw [hcont, hget]
    simp only [htot, hcg]
    split_ifs <;> tauto

/-- Witness for C1 at a concrete pair of codes. -/
theorem calculateSlotBySlotFeedback_eq_spec_witness :
    ([1, 1, 3, 4] : List ℕ).length = 4 ∧ ([1, 2, 1, 1] : List ℕ).length = 4 ∧
    calculateSlotBySlotFeedback [1, 1, 3, 4] [1, 2, 1, 1] =
      (List.range 4).map (fun i => specSlotTag [1, 1, 3, 4] [1, 2, 1, 1] i) :=
  ⟨by decide, by decide,
    calculateSlotBySlotFeedback_eq_spec [1, 1, 3, 4] [1, 2, 1, 1]
      (by decide) (by decide)⟩

/-- **C2.** Filtering twice by the same guess and feedback equals filtering
once: `filterSolutionsSlotBySlot` is idempotent. -/
theorem filterSolutionsSlotBySlot_idempotent (C : List (List ℕ))
    (g : List ℕ) (f : List SlotTag) :
    filterSolutionsSlotBySlot (filterSolutionsSlotBySlot C g f) g f =
      filterSolutionsSlotBySlot C g f := by
  unfold filterSolutionsSlotBySlot
  apply List.filter_eq_self.mpr
  intro a ha
  exact (List.mem_filter.mp ha).2

/-- **C10.** `generateAllCombinations` returns exactly 10000 pairwise-distinct
codes, each of length 4 with digits in `0..9`, and the `i`-th element is the
4-digit base-10 expansion of `i`. -/
theorem generateAllCombinations_spec :
    generateAllCombinations.length = 10000 ∧
    generateAllCombinations.Nodup ∧
    (∀ code ∈ generateAllCombinations, code.length = 4 ∧ ∀ d ∈ code, d ≤ 9) ∧
    (∀ i, i < 10000 → generateAllCombinations.get? i =
      some [i / 1000 % 10, i / 100 % 10, i / 10 % 10, i % 10]) := by
  refine ⟨by simp [generateAllCombinations], ?_, ?_, ?_⟩
  · unfold generateAllCombinations
    apply List.Nodup.map_on ?_ (List.nodup_range 10000)
    intro x hx y hy hxy
    have hx' : x < 10000 := List.mem_range.mp hx
    have hy' : y < 10000 := List.mem_range.mp hy
    simp only [List.cons.injEq, and_true] at hxy
    omega
  · intro code hcode
    unfold generateAllCombinations at hcode
    obtain ⟨i, _, rfl⟩ := List.mem_map.mp hcode
    refine ⟨rfl, ?_⟩
    intro d hd
    simp only [List.mem_cons, List.not_mem_nil, or_false] at hd
    rcases hd with rfl | rfl | rfl | rfl <;> omega
  · intro i hi
    unfold generateAllCombinations
    rw [List.get?_eq_getElem?, List.getElem?_map, List.getElem?_range hi]
    rfl

/-- Witness for C10's indexed clause, at index 1234. -/
theorem generateAllCombinations_spec_witness :
    (1234 : ℕ) < 10000 ∧
    generateAllCombinations.get? 1234 = some [1, 2, 3, 4] :=
  ⟨by decide, generateAllCombinations_spec.2.2.2 1234 (by decide)⟩

/-! ### Feedback groups

Both `calculateGuessScore` and `calculateWinProbabilities` group the
candidate solutions by the feedback they would give for a guess, using a JS
`Map` keyed by `slotFeedback.join("-")` (injective on tag lists).  A `Map` is
modelled by an association list in insertion order: a new key is appended at
the end, an existing key is updated in place. -/

/-- One `Map` update `feedbackGroups.set(key, …push(solution))`. -/
def insertSolution (acc : List (List SlotTag × List (List ℕ)))
    (fb : List SlotTag) (s : List ℕ) : List (List SlotTag × List (List ℕ)) :=
  match acc with
  | [] => [(fb, [s])]
  | (k, g) :: rest =>
      if k = fb then (k, g ++ [s]) :: rest else (k, g) :: insertSolution rest fb s

/-- The feedback groups a guess induces on the candidate list (`Map` from
feedback key to the solutions producing that feedback, in insertion order). -/
def feedbackPartition (guess : List ℕ) (sols : List (List ℕ)) :
    List (List SlotTag × List (List ℕ)) :=
  sols.foldl (fun acc s => insertSolution acc (calculateSlotBySlotFeedback guess s) s) []

/-- The group sizes (the `feedbackGroups.values()` of the counting `Map` in
`calculateGuessScore`). -/
def feedbackGroupSizes (guess : List ℕ) (sols : List (List ℕ)) : List ℕ :=
  (feedbackPartition guess sols).map (fun p => p.2.length)

/-- The JS test `feedbackKey.includes("correct-correct")` on a key built by
`slotFeedback.join("-")`: since `"correct"` occurs in the joined string only
as a whole tag word, the substring occurs exactly when two adjacent tags are
`correct`. -/
def hasAdjacentCorrect : List SlotTag → Bool
  | SlotTag.correct :: SlotTag.correct :: _ => true
  | _ :: rest => hasAdjacentCorrect rest
  | [] => false

/-- `Math.max(...values)` over a non-empty list of naturals. -/
def jsMaxNat (l : List ℕ) : ℕ := l.foldl max 0

/-- `Math.round`: round half toward positive infinity. -/
noncomputable def jsRound (x : ℝ) : ℝ := (⌊x + 1 / 2⌋ : ℤ)

/-- The entropy accumulation loop of `calculateGuessScore`
(`entropy -= probability * Math.log2(probability)` over the group sizes). -/
noncomputable def entropyOfSizes (sizes : List ℕ) (totalSolutions : ℕ) : ℝ :=
  (sizes.map (fun groupSize =>
    -(((groupSize : ℝ) / totalSolutions) *
      Real.logb 2 ((groupSize : ℝ) / totalSolutions)))).sum

/-- `calculateGuessScore`: 0 for at most one candidate; for 2..10 candidates
the rounded normalized-entropy score
`Math.round((maxEntropy - entropy) / maxEntropy * 10)`; for more than 10
candidates the largest feedback-group size, multiplied by 0.8 when some
feedback key contains `"correct-correct"`.  (The memoization cache is
dropped: it replays previously computed values.) -/
noncomputable def calculateGuessScore (guess : List ℕ)
    (possibleSolutions : List (List ℕ)) : ℝ :=
  if possibleSolutions.length ≤ 1 then 0
  else if possibleSolutions.length ≤ 10 then
    jsRound ((Real.logb 2 (possibleSolutions.length : ℝ) -
      entropyOfSizes (feedbackGroupSizes guess possibleSolutions)
        possibleSolutions.length) / Real.logb 2 (possibleSolutions.length : ℝ) * 10)
  else if (feedbackPartition guess possibleSolutions).any (fun p => hasAdjacentCorrect p.1) then
    (jsMaxNat (feedbackGroupSizes guess possibleSolutions) : ℝ) * 0.8
  else
    (jsMaxNat (feedbackGroupSizes guess possibleSolutions) : ℝ)

/-! Structural facts about `feedbackPartition` shared by several proofs. -/

theorem insertSolution_ne_nil (acc : List (List SlotTag × List (List ℕ)))
    (fb : List SlotTag) (s : List ℕ) : insertSolution acc fb s ≠ [] := by
  cases acc with
  | nil => simp [insertSolution]
  | cons p rest =>
      obtain ⟨k, g⟩ := p
      unfold insertSolution
      split <;> simp

theorem insertSolution_sizes_sum (acc : List (List SlotTag × List (List ℕ)))
    (fb : List SlotTag) (s : List ℕ) :
    ((insertSolution acc fb s).map (fun p => p.2.length)).sum =
      (acc.map (fun p => p.2.length)).sum + 1 := by
  induction acc with
  | nil => simp [insertSolution]
  | cons p rest ih =>
      obtain ⟨k, g⟩ := p
      unfold insertSolution
      split
      · simp
        omega
      · simp only [List.map_cons, List.sum_cons, ih]
        omega

theorem insertSolution_groups_ne_nil (acc : List (List SlotTag × List (List ℕ)))
    (fb : List SlotTag) (s : List ℕ)
    (h : ∀ p ∈ acc, p.2 ≠ []) :
    ∀ p ∈ insertSolution acc fb s, p.2 ≠ [] := by
  induction acc with
  | nil =>
      intro p hp
      simp only [insertSolution, List.mem_singleton] at hp
      subst hp
      simp
  | cons q rest ih =>
      obtain ⟨k, g⟩ := q
      unfold insertSolution
      split
      · intro p hp
        rcases List.mem_cons.mp hp with rfl | hp'
        · simp
        · exact h p (List.mem_cons_of_mem _ hp')
      · intro p hp
        rcases List.mem_cons.mp hp with rfl | hp'
        · exact h _ (List.mem_cons_self _ _)
        · exact ih (fun q hq => h q (List.mem_cons_of_mem _ hq)) p hp'

theorem feedbackPartition_foldl_sizes_sum (guess : List ℕ) (sols : List (List ℕ))
    (acc : List (List SlotTag × List (List ℕ))) :
    ((sols.foldl (fun acc s =>
        insertSolution acc (calculateSlotBySlotFeedback guess s) s) acc).map
      (fun p => p.2.length)).sum =
      (acc.map (fun p => p.2.length)).sum + sols.length := by
  induction sols generalizing acc with
  | nil => simp
  | cons s rest ih =>
      simp only [List.foldl_cons, List.length_cons, ih, insertSolution_sizes_sum]
      omega

/-- The feedback groups partition the candidate list: their sizes sum to the
number of candidates. -/
theorem feedbackPartition_sizes_sum (guess : List ℕ) (sols : List (List ℕ)) :
    ((feedbackPartition guess sols).map (fun p => p.2.length)).sum = sols.length := by
  unfold feedbackPartition
  rw [feedbackPartition_foldl_sizes_sum]
  simp

/-- Every feedback group is non-empty. -/
theorem feedbackPartition_groups_ne_nil (guess : List ℕ) (sols : List (List ℕ)) :
    ∀ p ∈ feedbackPartition guess sols, p.2 ≠ [] := by
  unfold feedbackPartition
  have key : ∀ (l : List (List ℕ)) (acc : List (List SlotTag × List (List ℕ))),
      (∀ p ∈ acc, p.2 ≠ []) →
      ∀ p ∈ l.foldl (fun acc s =>
        insertSolution acc (calculateSlotBySlotFeedback guess s) s) acc, p.2 ≠ [] := by
    intro l
    induction l with
    | nil => intro acc h; simpa using h
    | cons s rest ih =>
        intro acc h
        exact ih _ (insertSolution_groups_ne_nil _ _ _ h)
  exact key sols [] (by simp)

theorem feedbackPartition_ne_nil (guess : List ℕ) (sols : List (List ℕ))
    (h : sols ≠ []) : feedbackPartition guess sols ≠ [] := by
  unfold feedbackPartition
  have key : ∀ (l : List (List ℕ)) (acc : List (List SlotTag × List (List ℕ))),
      acc ≠ [] →
      l.foldl (fun acc s =>
        insertSolution acc (calculateSlotBySlotFeedback guess s) s) acc ≠ [] := by
    intro l
    induction l with
    | nil => intro acc h; simpa using h
    | cons s rest ih => intro acc _; exact ih _ (insertSolution_ne_nil _ _ _)
  cases sols with
  | nil => exact absurd rfl h
  | cons s rest =>
      simp only [List.foldl_cons]
      exact key rest _ (insertSolution_ne_nil _ _ _)

/-! Elementary facts about `jsMaxNat`. -/

theorem foldl_max_init_le (l : List ℕ) (a : ℕ) : a ≤ l.foldl max a := by
  induction l generalizing a with
  | nil => simp
  | cons x xs ih => exact le_trans (le_max_left a x) (ih (max a x))

theorem le_foldl_max (l : List ℕ) (a x : ℕ) (hx : x ∈ l) : x ≤ l.foldl max a := by
  induction l generalizing a with
  | nil => simp at hx
  | cons y ys ih =>
      rcases List.mem_cons.mp hx with rfl | h
      · exact le_trans (le_max_right a x) (foldl_max_init_le ys _)
      · exact ih _ h

theorem foldl_max_mem (l : List ℕ) (a : ℕ) : l.foldl max a = a ∨ l.foldl max a ∈ l := by
  induction l generalizing a with
  | nil => simp
  | cons x xs ih =>
      simp only [List.foldl_cons]
      rcases ih (max a x) with h | h
      · rw [h]
        rcases max_cases a x with ⟨hm, _⟩ | ⟨hm, _⟩
        · left; exact hm
        · right; rw [hm]; exact List.mem_cons_self x xs
      · right; exact List.mem_cons_of_mem _ h

/-- **C3.** `calculateGuessScore` returns 0 for at most one candidate; for
2..10 candidates it returns `round(10 × (1 − H / log2 n))` where `n` is the
candidate count and `H` is the Shannon entropy of the feedback-group-size
distribution the guess induces. -/
theorem calculateGuessScore_entropy_regime :
    (∀ guess sols, sols.length ≤ 1 → calculateGuessScore guess sols = 0) ∧
    (∀ guess sols, 2 ≤ sols.length → sols.length ≤ 10 →
      calculateGuessScore guess sols =
        jsRound (10 * (1 -
          entropyOfSizes (feedbackGroupSizes guess sols) sols.length /
            Real.logb 2 (sols.length : ℝ)))) := by
  constructor
  · intro guess sols h
    unfold calculateGuessScore
    rw [if_pos h]
  · intro guess sols h2 h10
    unfold calculateGuessScore
    rw [if_neg (by omega), if_pos h10]
    congr 1
    have hM : (0 : ℝ) < Real.logb 2 (sols.length : ℝ) := by
      apply Real.logb_pos (by norm_num)
      exact_mod_cast (by omega : 1 < sols.length)
    field_simp
    ring

/-- Witness for C3 at concrete inputs: a singleton candidate set (score 0)
and a two-candidate set (entropy formula). -/
theorem calculateGuessScore_entropy_regime_witness :
    (([[1, 2, 3, 4]] : List (List ℕ)).length ≤ 1 ∧
      calculateGuessScore [0, 1, 2, 3] [[1, 2, 3, 4]] = 0) ∧
    (2 ≤ ([[0, 0, 0, 0], [1, 1, 1, 1]] : List (List ℕ)).length ∧
      ([[0, 0, 0, 0], [1, 1, 1, 1]] : List (List ℕ)).length ≤ 10 ∧
      calculateGuessScore [0, 1, 2, 3] [[0, 0, 0, 0], [1, 1, 1, 1]] =
        jsRound (10 * (1 -
          entropyOfSizes
            (feedbackGroupSizes [0, 1, 2, 3] [[0, 0, 0, 0], [1, 1, 1, 1]]) 2 /
            Real.logb 2 (2 : ℝ)))) := by
  refine ⟨⟨by decide, calculateGuessScore_entropy_regime.1 _ _ (by decide)⟩,
    by decide, by decide, ?_⟩
  have h := calculateGuessScore_entropy_regime.2 [0, 1, 2, 3]
    [[0, 0, 0, 0], [1, 1, 1, 1]] (by decide) (by decide)
  simpa using h

/-- `feedbackKey.includes("correct-correct")` holds exactly when two adjacent
slots of the feedback are `correct`. -/
theorem hasAdjacentCorrect_iff (fb : List SlotTag) :
    hasAdjacentCorrect fb = true ↔
      ∃ i, fb[i]? = some SlotTag.correct ∧ fb[i + 1]? = some SlotTag.correct := by
  induction fb with
  | nil =>
      constructor
      · intro h; exact absurd h (by decide)
      · rintro ⟨i, h1, _⟩; simp at h1
  | cons x rest ih =>
      cases rest with
      | nil =>
          constructor
          · intro h; exfalso; cases x <;> simp [hasAdjacentCorrect] at h
          · rintro ⟨i, _, h2⟩
            have hn : ([x] : List SlotTag)[i + 1]? = none := by
              rw [List.getElem?_eq_none_iff]
              simp
            rw [hn] at h2
            exact Option.noConfusion h2
      | cons y r2 =>
          by_cases hxy : x = SlotTag.correct ∧ y = SlotTag.correct
          · obtain ⟨rfl, rfl⟩ := hxy
            constructor
            · intro _
              exact ⟨0, by simp, by simp⟩
            · intro _
              rfl
          · have hstep : hasAdjacentCorrect (x :: y :: r2) =
                hasAdjacentCorrect (y :: r2) := by
              cases x <;> cases y <;> simp_all [hasAdjacentCorrect]
            rw [hstep, ih]
            constructor
            · rintro ⟨i, h1, h2⟩
              exact ⟨i + 1, by simpa using h1, by simpa using h2⟩
            · rintro ⟨i, h1, h2⟩
              cases i with
              | zero =>
                  exfalso
                  apply hxy
                  refine ⟨?_, ?_⟩
                  · simpa using h1
                  · simpa using h2
              | succ j =>
                  exact ⟨j, by simpa using h1, by simpa using h2⟩

/-- **C4 (amended).** For more than 10 candidates `calculateGuessScore`
returns the size of the largest feedback group, multiplied by 0.8 if and only
if some feedback group's per-slot feedback has two Correct slots in *adjacent*
positions (the source tests `feedbackKey.includes("correct-correct")`, so two
non-adjacent Correct slots do not trigger the multiplier). -/
theorem calculateGuessScore_minimax_regime (guess : List ℕ)
    (sols : List (List ℕ)) (h : 10 < sols.length) :
    (jsMaxNat (feedbackGroupSizes guess sols) ∈ feedbackGroupSizes guess sols ∧
      ∀ x ∈ feedbackGroupSizes guess sols,
        x ≤ jsMaxNat (feedbackGroupSizes guess sols)) ∧
    (calculateGuessScore guess sols =
        (jsMaxNat (feedbackGroupSizes guess sols) : ℝ) * 0.8 ∨
      calculateGuessScore guess sols =
        (jsMaxNat (feedbackGroupSizes guess sols) : ℝ)) ∧
    (calculateGuessScore guess sols =
        (jsMaxNat (feedbackGroupSizes guess sols) : ℝ) * 0.8 ↔
      ∃ fb ∈ (feedbackPartition guess sols).map Prod.fst, ∃ i,
        fb[i]? = some SlotTag.correct ∧ fb[i + 1]? = some SlotTag.correct) := by
  have hnil : sols ≠ [] := by
    intro hn
    rw [hn] at h
    simp at h
  have hsizes : feedbackGroupSizes guess sols ≠ [] := by
    unfold feedbackGroupSizes
    simpa using feedbackPartition_ne_nil guess sols hnil
  have hpos : ∀ x ∈ feedbackGroupSizes guess sols, 1 ≤ x := by
    intro x hx
    obtain ⟨p, hp, rfl⟩ := List.mem_map.mp hx
    have := feedbackPartition_groups_ne_nil guess sols p hp
    cases hq : p.2 with
    | nil => exact absurd hq this
    | cons a l => simp [hq]
  have hmem : jsMaxNat (feedbackGroupSizes guess sols) ∈ feedbackGroupSizes guess sols := by
    rcases foldl_max_mem (feedbackGroupSizes guess sols) 0 with h0 | hm
    · exfalso
      obtain ⟨x, hx⟩ := List.exists_mem_of_ne_nil _ hsizes
      have hx1 := hpos x hx
      have hxle := le_foldl_max (feedbackGroupSizes guess sols) 0 x hx
      omega
    · exact hm
  have hub : ∀ x ∈ feedbackGroupSizes guess sols,
      x ≤ jsMaxNat (feedbackGroupSizes guess sols) :=
    fun x hx => le_foldl_max _ 0 x hx
  have hL1 : 1 ≤ jsMaxNat (feedbackGroupSizes guess sols) := hpos _ hmem
  have hscore : calculateGuessScore guess sols =
      if (feedbackPartition guess sols).any (fun p => hasAdjacentCorrect p.1) then
        (jsMaxNat (feedbackGroupSizes guess sols) : ℝ) * 0.8
      else (jsMaxNat (feedbackGroupSizes guess sols) : ℝ) := by
    unfold calculateGuessScore
    rw [if_neg (by omega), if_neg (by omega)]
  refine ⟨⟨hmem, hub⟩, ?_, ?_⟩
  · rw [hscore]
    split_ifs
    · exact Or.inl rfl
    · exact Or.inr rfl
  · rw [hscore]
    have hL1R : (1 : ℝ) ≤ (jsMaxNat (feedbackGroupSizes guess sols) : ℝ) := by
      exact_mod_cast hL1
    constructor
    · intro heq
      by_cases hany : (feedbackPartition guess sols).any (fun p => hasAdjacentCorrect p.1)
      · obtain ⟨p, hp, hpc⟩ := List.any_eq_true.mp hany
        exact ⟨p.1, List.mem_map_of_mem _ hp, (hasAdjacentCorrect_iff p.1).mp hpc⟩
      · rw [if_neg hany] at heq
        nlinarith
    · rintro ⟨fb, hfb, hadj⟩
      obtain ⟨p, hp, rfl⟩ := List.mem_map.mp hfb
      have hany : (feedbackPartition guess sols).any (fun p => hasAdjacentCorrect p.1) := by
        apply List.any_eq_true.mpr
        exact ⟨p, hp, (hasAdjacentCorrect_iff p.1).mpr hadj⟩
      rw [if_pos hany]

/-- Witness for C4's amended theorem at a concrete 11-candidate set. -/
theorem calculateGuessScore_minimax_regime_witness :
    10 < ([[0, 9, 2, 9], [4, 4, 4, 4], [5, 5, 5, 5], [6, 6, 6, 6], [7, 7, 7, 7],
      [8, 8, 8, 8], [9, 9, 9, 9], [4, 5, 6, 7], [5, 6, 7, 8], [6, 7, 8, 9],
      [7, 8, 9, 4]] : List (List ℕ)).length ∧
    (calculateGuessScore [0, 1, 2, 3]
        [[0, 9, 2, 9], [4, 4, 4, 4], [5, 5, 5, 5], [6, 6, 6, 6], [7, 7, 7, 7],
          [8, 8, 8, 8], [9, 9, 9, 9], [4, 5, 6, 7], [5, 6, 7, 8], [6, 7, 8, 9],
          [7, 8, 9, 4]] =
        (jsMaxNat (feedbackGroupSizes [0, 1, 2, 3]
          [[0, 9, 2, 9], [4, 4, 4, 4], [5, 5, 5, 5], [6, 6, 6, 6], [7, 7, 7, 7],
            [8, 8, 8, 8], [9, 9, 9, 9], [4, 5, 6, 7], [5, 6, 7, 8], [6, 7, 8, 9],
            [7, 8, 9, 4]]) : ℝ) * 0.8 ∨
      calculateGuessScore [0, 1, 2, 3]
        [[0, 9, 2, 9], [4, 4, 4, 4], [5, 5, 5, 5], [6, 6, 6, 6], [7, 7, 7, 7],
          [8, 8, 8, 8], [9, 9, 9, 9], [4, 5, 6, 7], [5, 6, 7, 8], [6, 7, 8, 9],
          [7, 8, 9, 4]] =
        (jsMaxNat (feedbackGroupSizes [0, 1, 2, 3]
          [[0, 9, 2, 9], [4, 4, 4, 4], [5, 5, 5, 5], [6, 6, 6, 6], [7, 7, 7, 7],
            [8, 8, 8, 8], [9, 9, 9, 9], [4, 5, 6, 7], [5, 6, 7, 8], [6, 7, 8, 9],
            [7, 8, 9, 4]]) : ℝ)) :=
  ⟨by decide,
    (calculateGuessScore_minimax_regime [0, 1, 2, 3] _ (by decide)).2.1⟩

/-- Counterexample to C4 as stated: for the guess `[0,1,2,3]` against an
11-candidate set in which one feedback group is `[correct, wrong, correct,
wrong]` (two non-adjacent Correct slots) and no group has adjacent Correct
slots, the score is the raw largest-group size (10), not 0.8 × 10 — so "the
score is multiplied by 0.8 iff some group has two or more Correct slots" is
false. -/
theorem calculateGuessScore_two_correct_counterexample :
    ¬ (calculateGuessScore [0, 1, 2, 3]
        [[0, 9, 2, 9], [4, 4, 4, 4], [5, 5, 5, 5], [6, 6, 6, 6], [7, 7, 7, 7],
          [8, 8, 8, 8], [9, 9, 9, 9], [4, 5, 6, 7], [5, 6, 7, 8], [6, 7, 8, 9],
          [7, 8, 9, 4]] =
        (jsMaxNat (feedbackGroupSizes [0, 1, 2, 3]
          [[0, 9, 2, 9], [4, 4, 4, 4], [5, 5, 5, 5], [6, 6, 6, 6], [7, 7, 7, 7],
            [8, 8, 8, 8], [9, 9, 9, 9], [4, 5, 6, 7], [5, 6, 7, 8], [6, 7, 8, 9],
            [7, 8, 9, 4]]) : ℝ) * 0.8 ↔
      ∃ fb ∈ (feedbackPartition [0, 1, 2, 3]
        [[0, 9, 2, 9], [4, 4, 4, 4], [5, 5, 5, 5], [6, 6, 6, 6], [7, 7, 7, 7],
          [8, 8, 8, 8], [9, 9, 9, 9], [4, 5, 6, 7], [5, 6, 7, 8], [6, 7, 8, 9],
          [7, 8, 9, 4]]).map Prod.fst,
        2 ≤ (fb.filter (fun t => t == SlotTag.correct)).length) := by
  intro hiff
  have hex : ∃ fb ∈ (feedbackPartition [0, 1, 2, 3]
      [[0, 9, 2, 9], [4, 4, 4, 4], [5, 5, 5, 5], [6, 6, 6, 6], [7, 7, 7, 7],
        [8, 8, 8, 8], [9, 9, 9, 9], [4, 5, 6, 7], [5, 6, 7, 8], [6, 7, 8, 9],
        [7, 8, 9, 4]]).map Prod.fst,
      2 ≤ (fb.filter (fun t => t == SlotTag.correct)).length := by decide
  have heq := hiff.mpr hex
  have hscore : calculateGuessScore [0, 1, 2, 3]
      [[0, 9, 2, 9], [4, 4, 4, 4], [5, 5, 5, 5], [6, 6, 6, 6], [7, 7, 7, 7],
        [8, 8, 8, 8], [9, 9, 9, 9], [4, 5, 6, 7], [5, 6, 7, 8], [6, 7, 8, 9],
        [7, 8, 9, 4]] = ((10 : ℕ) : ℝ) := by
    unfold calculateGuessScore
    rw [if_neg (by decide), if_neg (by decide),
      if_neg (by rw [show (feedbackPartition [0, 1, 2, 3]
        [[0, 9, 2, 9], [4, 4, 4, 4], [5, 5, 5, 5], [6, 6, 6, 6], [7, 7, 7, 7],
          [8, 8, 8, 8], [9, 9, 9, 9], [4, 5, 6, 7], [5, 6, 7, 8], [6, 7, 8, 9],
          [7, 8, 9, 4]]).any (fun p => hasAdjacentCorrect p.1) = false from by decide]; simp),
      show jsMaxNat (feedbackGroupSizes [0, 1, 2, 3]
        [[0, 9, 2, 9], [4, 4, 4, 4], [5, 5, 5, 5], [6, 6, 6, 6], [7, 7, 7, 7],
          [8, 8, 8, 8], [9, 9, 9, 9], [4, 5, 6, 7], [5, 6, 7, 8], [6, 7, 8, 9],
          [7, 8, 9, 4]]) = 10 from by decide]
  rw [hscore, show jsMaxNat (feedbackGroupSizes [0, 1, 2, 3]
      [[0, 9, 2, 9], [4, 4, 4, 4], [5, 5, 5, 5], [6, 6, 6, 6], [7, 7, 7, 7],
        [8, 8, 8, 8], [9, 9, 9, 9], [4, 5, 6, 7], [5, 6, 7, 8], [6, 7, 8, 9],
        [7, 8, 9, 4]]) = 10 from by decide] at heq
  norm_num at heq

/-! ### Game session state (claims C9, and the session used by C6–C8) -/

/-- `initializeGameState`: fresh session over the full universe. -/
def initializeGameState : GameState :=
  { guesses := []
    feedbacks := []
    possibleSolutions := generateAllCombinations }

/-- `addGuessToGameState`: append one `(guess, feedback)` pair and re-derive
the candidate subset by filtering the previous one. -/
def addGuessToGameState (gameState : GameState) (guess : List ℕ)
    (slotFeedback : List SlotTag) : GameState :=
  { guesses := gameState.guesses ++ [guess]
    feedbacks := gameState.feedbacks ++ [convertSlotFeedback slotFeedback]
    possibleSolutions :=
      filterSolutionsSlotBySlot gameState.possibleSolutions guess slotFeedback }

/-- States reachable from a fresh session by repeatedly recording a guess. -/
inductive ReachableGameState : GameState → Prop where
  | init : ReachableGameState initializeGameState
  | step (s : GameState) (g : List ℕ) (f : List SlotTag) :
      ReachableGameState s → ReachableGameState (addGuessToGameState s g f)

/-- **C9.** `addGuessToGameState` appends exactly one guess and one feedback
(so guesses and feedbacks stay in lockstep in every reachable state), and the
new candidate subset is a sublist of the old one — it never grows. -/
theorem addGuessToGameState_spec :
    (∀ (s : GameState) (g : List ℕ) (f : List SlotTag),
      (addGuessToGameState s g f).guesses = s.guesses ++ [g] ∧
      (addGuessToGameState s g f).feedbacks =
        s.feedbacks ++ [convertSlotFeedback f] ∧
      (addGuessToGameState s g f).possibleSolutions.Sublist s.possibleSolutions) ∧
    (∀ s : GameState, ReachableGameState s →
      s.guesses.length = s.feedbacks.length) := by
  constructor
  · intro s g f
    exact ⟨rfl, rfl, List.filter_sublist _⟩
  · intro s hs
    induction hs with
    | init => rfl
    | step s g f _ ih => simp [addGuessToGameState, ih]

/-- Witness for C9's reachability clause at the initial state. -/
theorem addGuessToGameState_spec_witness :
    ReachableGameState initializeGameState ∧
    initializeGameState.guesses.length = initializeGameState.feedbacks.length :=
  ⟨ReachableGameState.init, addGuessToGameState_spec.2 _ ReachableGameState.init⟩

/-! ### Information-maximizing guesses and the win-probability simulator -/

/-- One `Map` update of the `digitFrequency` counter. -/
def tallyInsert (acc : List (ℕ × ℕ)) (d : ℕ) : List (ℕ × ℕ) :=
  match acc with
  | [] => [(d, 1)]
  | (k, c) :: rest =>
      if k = d then (k, c + 1) :: rest else (k, c) :: tallyInsert rest d

/-- `digitFrequency`: how often each digit occurs across the candidate
solutions (`Map` in insertion order). -/
def digitFrequency (sols : List (List ℕ)) : List (ℕ × ℕ) :=
  sols.foldl (fun acc s => s.foldl tallyInsert acc) []

/-- The candidate digits sorted ascending by frequency (stable, as the JS
engines' `Array.prototype.sort` is): rarest first. -/
def candidateDigits (sols : List (List ℕ)) : List ℕ :=
  ((digitFrequency sols).mergeSort (fun a b => decide (a.2 ≤ b.2))).map Prod.fst

/-- The digits 0..9 that occur in no candidate solution
(`allDigits.filter((d) => !digitFrequency.has(d))`). -/
def unknownDigits (sols : List (List ℕ)) : List ℕ :=
  [0, 1, 2, 3, 4, 5, 6, 7, 8, 9].filter
    (fun d => !((digitFrequency sols).any (fun p => p.1 == d)))

/-- `generateInformationMaximizingGuesses`: strategic guesses built from the
rarest candidate digits and from digits known not to occur, keeping only
guesses with 4 distinct digits (`new Set(guess).size === 4`). -/
def generateInformationMaximizingGuesses (sols : List (List ℕ)) : List (List ℕ) :=
  if 10 < sols.length then []
  else
    ((if 4 ≤ (candidateDigits sols).length then
        [[(candidateDigits sols).getD 0 0, (candidateDigits sols).getD 1 0,
          (candidateDigits sols).getD 2 0, (candidateDigits sols).getD 3 0]] ++
        (if 8 ≤ (candidateDigits sols).length then
          [[(candidateDigits sols).getD 4 0, (candidateDigits sols).getD 5 0,
            (candidateDigits sols).getD 6 0, (candidateDigits sols).getD 7 0]]
         else [])
      else []) ++
     (if 2 ≤ (candidateDigits sols).length ∧ 2 ≤ (unknownDigits sols).length then
        [[(candidateDigits sols).getD 0 0, (candidateDigits sols).getD 1 0,
          (unknownDigits sols).getD 0 0, (unknownDigits sols).getD 1 0]]
      else []) ++
     (if 4 ≤ (unknownDigits sols).length then
        [[(unknownDigits sols).getD 0 0, (unknownDigits sols).getD 1 0,
          (unknownDigits sols).getD 2 0, (unknownDigits sols).getD 3 0]]
      else [])).filter (fun g => g.dedup.length = 4)

/-- `findOptimalNextGuess`: the first candidate (solutions plus, for small
sets, the information-maximizing guesses) achieving the strictly smallest
`calculateGuessScore`. -/
noncomputable def findOptimalNextGuess (possibleSolutions : List (List ℕ)) : List ℕ :=
  if possibleSolutions.length ≤ 1 then possibleSolutions.headD [0, 0, 0, 0]
  else
    ((possibleSolutions ++
      (if possibleSolutions.length ≤ 10 then
        generateInformationMaximizingGuesses possibleSolutions else [])).foldl
      (fun best c =>
        if calculateGuessScore c possibleSolutions < best.2 then
          (c, calculateGuessScore c possibleSolutions)
        else best)
      ((possibleSolutions ++
        (if possibleSolutions.length ≤ 10 then
          generateInformationMaximizingGuesses possibleSolutions else [])).headD [0, 0, 0, 0],
       calculateGuessScore
        ((possibleSolutions ++
          (if possibleSolutions.length ≤ 10 then
            generateInformationMaximizingGuesses possibleSolutions else [])).headD [0, 0, 0, 0])
        possibleSolutions)).1

/-- One update of the `totalOutcomes` object:
`totalOutcomes[m] = (totalOutcomes[m] || 0) + p`.  (A JS object with numeric
keys lists its entries in ascending key order rather than insertion order;
only the key-to-value mapping matters to the claims, so insertion order is
used here.) -/
def addMass (outcomes : List (ℕ × ℚ)) (moves : ℕ) (p : ℚ) : List (ℕ × ℚ) :=
  match outcomes with
  | [] => [(moves, p)]
  | (m, q) :: rest =>
      if m = moves then (m, q + p) :: rest else (m, q) :: addMass rest moves p

/-- The body of `calculateWinProbabilities`, with the depth bound as
structural fuel (first argument).  `maxDepth + 1` here corresponds to a
source call with `maxDepth ≥ 1`; the source's `maxDepth > 1` test is then
`0 < maxDepth` on the predecessor. -/
noncomputable def calculateWinProbabilitiesAux :
    ℕ → List ℕ → List (List ℕ) → ℕ → List (ℕ × ℚ)
  | 0, _, _, currentMoveCount => [(currentMoveCount + 1, 1)]
  | maxDepth + 1, guess, possibleSolutions, currentMoveCount =>
      if possibleSolutions.length ≤ 1 then [(currentMoveCount + 1, 1)]
      else
        (feedbackPartition guess possibleSolutions).foldl (fun acc g =>
          if g.1 = [SlotTag.correct, SlotTag.correct, SlotTag.correct,
              SlotTag.correct] then
            addMass acc (currentMoveCount + 1)
              ((g.2.length : ℚ) / (possibleSolutions.length : ℚ))
          else if g.2.length = 1 then
            addMass acc (currentMoveCount + 2)
              ((g.2.length : ℚ) / (possibleSolutions.length : ℚ))
          else if 0 < maxDepth then
            (calculateWinProbabilitiesAux maxDepth (findOptimalNextGuess g.2)
              g.2 (currentMoveCount + 1)).foldl
              (fun acc2 mp => addMass acc2 mp.1
                (((g.2.length : ℚ) / (possibleSolutions.length : ℚ)) * mp.2)) acc
          else
            addMass acc
              (currentMoveCount + 1 + (if g.2.length ≤ 3 then 2 else 3))
              ((g.2.length : ℚ) / (possibleSolutions.length : ℚ))) []

/-- `calculateWinProbabilities(guess, possibleSolutions, currentMoveCount,
maxDepth = 3)`: probability distribution over the move count at which the
game finishes, as an association list from move count to probability. -/
noncomputable def calculateWinProbabilities (guess : List ℕ)
    (possibleSolutions : List (List ℕ)) (currentMoveCount : ℕ)
    (maxDepth : ℕ) : List (ℕ × ℚ) :=
  calculateWinProbabilitiesAux maxDepth guess possibleSolutions currentMoveCount

theorem addMass_sum (outcomes : List (ℕ × ℚ)) (moves : ℕ) (p : ℚ) :
    ((addMass outcomes moves p).map (fun q => q.2)).sum =
      (outcomes.map (fun q => q.2)).sum + p := by
  induction outcomes with
  | nil => simp [addMass]
  | cons mq rest ih =>
      obtain ⟨m, q⟩ := mq
      unfold addMass
      split
      · simp only [List.map_cons, List.sum_cons]
        ring
      · simp only [List.map_cons, List.sum_cons, ih]
        ring

theorem foldl_addMass_sum (sub : List (ℕ × ℚ)) (gp : ℚ) (acc : List (ℕ × ℚ)) :
    ((sub.foldl (fun acc2 mp => addMass acc2 mp.1 (gp * mp.2)) acc).map
      (fun q => q.2)).sum =
      (acc.map (fun q => q.2)).sum + gp * (sub.map (fun q => q.2)).sum := by
  induction sub generalizing acc with
  | nil => simp
  | cons mp rest ih =>
      simp only [List.foldl_cons, List.map_cons, List.sum_cons, ih, addMass_sum]
      ring

theorem sum_map_div_lengths (l : List (List SlotTag × List (List ℕ))) (n : ℚ) :
    (l.map (fun p => (p.2.length : ℚ) / n)).sum =
      ((((l.map (fun p => p.2.length)).sum : ℕ)) : ℚ) / n := by
  induction l with
  | nil => simp
  | cons p rest ih =>
      simp only [List.map_cons, List.sum_cons, ih, Nat.cast_add, add_div]

theorem calculateWinProbabilitiesAux_sum (d : ℕ) :
    ∀ (guess : List ℕ) (sols : List (List ℕ)) (cur : ℕ),
      ((calculateWinProbabilitiesAux d guess sols cur).map (fun q => q.2)).sum = 1 := by
  induction d with
  | zero =>
      intro guess sols cur
      simp [calculateWinProbabilitiesAux]
  | succ n ihd =>
      intro guess sols cur
      unfold calculateWinProbabilitiesAux
      by_cases hlen : sols.length ≤ 1
      · rw [if_pos hlen]; simp
      · rw [if_neg hlen]
        have hn0 : ((sols.length : ℚ)) ≠ 0 := Nat.cast_ne_zero.mpr (by omega)
        have key : ∀ (gs : List (List SlotTag × List (List ℕ)))
            (acc : List (ℕ × ℚ)),
            ((gs.foldl (fun acc g =>
              if g.1 = [SlotTag.correct, SlotTag.correct, SlotTag.correct,
                  SlotTag.correct] then
                addMass acc (cur + 1) ((g.2.length : ℚ) / (sols.length : ℚ))
              else if g.2.length = 1 then
                addMass acc (cur + 2) ((g.2.length : ℚ) / (sols.length : ℚ))
              else if 0 < n then
                (calculateWinProbabilitiesAux n (findOptimalNextGuess g.2)
                  g.2 (cur + 1)).foldl
                  (fun acc2 mp => addMass acc2 mp.1
                    (((g.2.length : ℚ) / (sols.length : ℚ)) * mp.2)) acc
              else
                addMass acc (cur + 1 + (if g.2.length ≤ 3 then 2 else 3))
                  ((g.2.length : ℚ) / (sols.length : ℚ))) acc).map
              (fun q => q.2)).sum =
              (acc.map (fun q => q.2)).sum +
                (gs.map (fun p => (p.2.length : ℚ) / (sols.length : ℚ))).sum := by
          intro gs
          induction gs with
          | nil => intro acc; simp
          | cons g rest ihg =>
              intro acc
              rw [List.foldl_cons, ihg]
              have hstep : (((if g.1 = [SlotTag.correct, SlotTag.correct,
                    SlotTag.correct, SlotTag.correct] then
                  addMass acc (cur + 1) ((g.2.length : ℚ) / (sols.length : ℚ))
                else if g.2.length = 1 then
                  addMass acc (cur + 2) ((g.2.length : ℚ) / (sols.length : ℚ))
                else if 0 < n then
                  (calculateWinProbabilitiesAux n (findOptimalNextGuess g.2)
                    g.2 (cur + 1)).foldl
                    (fun acc2 mp => addMass acc2 mp.1
                      (((g.2.length : ℚ) / (sols.length : ℚ)) * mp.2)) acc
                else
                  addMass acc (cur + 1 + (if g.2.length ≤ 3 then 2 else 3))
                    ((g.2.length : ℚ) / (sols.length : ℚ)))).map
                  (fun q => q.2)).sum =
                  (acc.map (fun q => q.2)).sum +
                    (g.2.length : ℚ) / (sols.length : ℚ) := by
                split_ifs with h1 h2 h3 h4
                · rw [addMass_sum]
                · rw [addMass_sum]
                · rw [foldl_addMass_sum, ihd (findOptimalNextGuess g.2) g.2 (cur + 1)]
                  ring
                · rw [addMass_sum]
                · rw [addMass_sum]
              rw [hstep, List.map_cons, List.sum_cons]
              ring
        rw [key, sum_map_div_lengths, feedbackPartition_sizes_sum]
        simp [div_self hn0]

/-- **C5.** For every guess, non-empty candidate set, current move count and
depth bound, the probabilities in the map returned by
`calculateWinProbabilities` sum exactly to 1 over the rationals. -/
theorem calculateWinProbabilities_sum (guess : List ℕ) (sols : List (List ℕ))
    (currentMoveCount maxDepth : ℕ) (hne : sols ≠ []) :
    ((calculateWinProbabilities guess sols currentMoveCount maxDepth).map
      (fun q => q.2)).sum = 1 :=
  calculateWinProbabilitiesAux_sum maxDepth guess sols currentMoveCount

/-- Witness for C5 on a concrete four-candidate set at depth 3. -/
theorem calculateWinProbabilities_sum_witness :
    ([[1, 4, 6, 0], [1, 4, 6, 7], [1, 4, 6, 9], [1, 4, 6, 6]] : List (List ℕ)) ≠ [] ∧
    ((calculateWinProbabilities [7, 8, 9, 0]
      [[1, 4, 6, 0], [1, 4, 6, 7], [1, 4, 6, 9], [1, 4, 6, 6]] 2 3).map
      (fun q => q.2)).sum = 1 :=
  ⟨by decide,
    calculateWinProbabilities_sum [7, 8, 9, 0]
      [[1, 4, 6, 0], [1, 4, 6, 7], [1, 4, 6, 9], [1, 4, 6, 6]] 2 3 (by decide)⟩

/-! ### Recommendation ranker: `getBestNextGuesses` (claims C6, C7, C8)

The embedding returns, besides the result object, the session state as it
stands after the call: the `possibleSolutions.length ≤ 3` branch applies
`possibleSolutions.sort(...)`, which sorts the caller's array *in place*; all
other accesses are read-only.  A `randomSource` argument models the ambient
`Math.random` stream; the current revision replaced the random sampling of
filler guesses by the fixed deterministic `strategicSpreadGuesses` list, so
the body never draws from it.  JS `Array.prototype.sort` with a user
comparator is a stable sort (as mandated by the language spec), modelled by
`List.mergeSort` with the `comparator ≤ 0` relation. -/

/-- One suggestion entry of the result. -/
structure Suggestion where
  guess : List ℕ
  score : ℝ
  isPossibleSolution : Bool
  winProbabilities : Option (List (ℕ × ℚ))

/-- The object returned by `getBestNextGuesses`. -/
structure BestGuessResult where
  suggestions : List Suggestion
  possibleSolutionsCount : ℕ

/-- The endgame sort `possibleSolutions.sort((a, b) => new Set(b).size - new
Set(a).size)`: a stable sort by *descending distinct-digit count*, so codes
with more distinct digits (fewer duplicates) come first.  (The source comment
"Prefer solutions with more duplicates" misstates its own comparator, which
orders the opposite way; the name here follows the source's intent label, the
body follows the comparator.) -/
def sortSolutionsByDuplicates (sols : List (List ℕ)) : List (List ℕ) :=
  sols.mergeSort (fun a b => decide (b.dedup.length ≤ a.dedup.length))

/-- One `Set<string>` insertion `candidateGuesses.add(guess.join(","))`
(`join(",")` is injective on digit lists, so the set is modelled on the lists
themselves, keeping first occurrences in insertion order). -/
def addCandidate (acc : List (List ℕ)) (g : List ℕ) : List (List ℕ) :=
  if acc.contains g then acc else acc ++ [g]

/-- The fixed opening book injected when the guess history is empty. -/
def openingBook : List (List ℕ) :=
  [[1, 2, 3, 4], [0, 1, 2, 3], [5, 6, 7, 8], [0, 2, 4, 6], [1, 3, 5, 7],
   [2, 4, 6, 8]]

/-- The 30 fixed deterministic "spread" guesses injected when more than 100
candidates remain (these replaced the `Math.random` sampling of the earlier
revision). -/
def strategicSpreadGuesses : List (List ℕ) :=
  [[0, 2, 4, 6], [1, 3, 5, 7], [2, 4, 6, 8], [3, 5, 7, 9], [0, 1, 8, 9],
   [2, 3, 6, 7], [4, 5, 2, 3], [6, 7, 0, 1], [8, 9, 4, 5], [1, 4, 7, 0],
   [0, 5, 2, 9], [3, 6, 1, 8], [7, 2, 5, 4], [9, 0, 3, 6], [1, 8, 4, 7],
   [5, 3, 0, 2], [6, 9, 7, 1], [2, 5, 8, 3], [4, 0, 6, 9], [8, 1, 3, 5],
   [0, 7, 9, 2], [3, 4, 1, 8], [5, 6, 0, 7], [9, 2, 4, 1], [1, 5, 8, 0],
   [7, 3, 2, 6], [4, 8, 5, 9], [0, 6, 3, 4], [2, 9, 7, 5], [8, 0, 1, 3]]

/-- The de-duplicated candidate pool of the general branch, in insertion
order: candidate solutions (all of them when ≤ 10 remain, else the first
`min(length, 50)`), then information-maximizing guesses (≤ 10), then the
opening book (first move), then the deterministic spread guesses (> 100). -/
def candidateGuessList (gameState : GameState) : List (List ℕ) :=
  ((if gameState.possibleSolutions.length ≤ 10 then gameState.possibleSolutions
    else gameState.possibleSolutions.take
      (min gameState.possibleSolutions.length 50)) ++
   (if gameState.possibleSolutions.length ≤ 10 then
      generateInformationMaximizingGuesses gameState.possibleSolutions
    else []) ++
   (if gameState.guesses.length = 0 then openingBook else []) ++
   (if 100 < gameState.possibleSolutions.length then strategicSpreadGuesses
    else [])).foldl addCandidate []

/-- The JS test `sol.every((digit, i) => digit === candidate[i])`. -/
def jsSameGuess (sol candidate : List ℕ) : Bool :=
  (List.range sol.length).all (fun i => sol[i]? == candidate[i]?)

/-- The scoring loop of the general branch: score each candidate, flag
whether it is still a possible solution, and attach win probabilities when at
most 20 candidates remain. -/
noncomputable def scoredGuessList (gameState : GameState) : List Suggestion :=
  (candidateGuessList gameState).map (fun candidate =>
    { guess := candidate
      score := calculateGuessScore candidate gameState.possibleSolutions
      isPossibleSolution :=
        gameState.possibleSolutions.any (fun sol => jsSameGuess sol candidate)
      winProbabilities :=
        if gameState.possibleSolutions.length ≤ 20 then
          some (calculateWinProbabilities candidate gameState.possibleSolutions
            gameState.guesses.length 3)
        else none })

/-- The sort comparator `(a, b) => a.score - b.score`, tie-broken in favour
of possible solutions, as the "comes before or ties" relation of the stable
sort. -/
noncomputable def suggestionLE (a b : Suggestion) : Bool :=
  if a.score = b.score then !(!a.isPossibleSolution && b.isPossibleSolution)
  else decide (a.score ≤ b.score)

/-- The sorted scored guesses (`scoredGuesses.sort(...)`, a stable in-place
sort of the freshly built local array). -/
noncomputable def sortedScoredGuesses (gameState : GameState) : List Suggestion :=
  (scoredGuessList gameState).mergeSort suggestionLE

/-- `Math.min(...scoredGuesses.map(s => s.score))` over the (non-empty)
scored list. -/
noncomputable def jsMinScore : List Suggestion → ℝ
  | [] => 0
  | s :: rest => rest.foldl (fun m t => min m t.score) s.score

/-- `qualitySuggestions`: possible solutions are always kept; other guesses
only when within the score tolerance of the best score. -/
noncomputable def qualitySuggestionList (gameState : GameState) : List Suggestion :=
  (sortedScoredGuesses gameState).filter (fun s =>
    s.isPossibleSolution ||
    decide (s.score ≤
      (if gameState.possibleSolutions.length ≤ 10 then
        jsMinScore (sortedScoredGuesses gameState) + 2
      else jsMinScore (sortedScoredGuesses gameState) * 1.5)))

/-- `effectiveMaxSuggestions`: when at most 5 candidates remain, never below
the number of possible-solution suggestions that survived the quality
filter. -/
noncomputable def effectiveMaxSuggestions (gameState : GameState)
    (maxSuggestions : ℕ) : ℕ :=
  if gameState.possibleSolutions.length ≤ 5 then
    max maxSuggestions
      ((qualitySuggestionList gameState).filter
        (fun s => s.isPossibleSolution)).length
  else maxSuggestions

/-- `getBestNextGuesses(gameState, maxSuggestions = 5)`: the recommendation
ranker.  First component: the returned object; second component: the session
state after the call (mutated only by the in-place sort of the ≤ 3 branch). -/
noncomputable def getBestNextGuesses (randomSource : ℕ → ℕ)
    (gameState : GameState) (maxSuggestions : ℕ) : BestGuessResult × GameState :=
  if gameState.possibleSolutions.length = 0 then
    (⟨[], 0⟩, gameState)
  else if gameState.possibleSolutions.length = 1 then
    (⟨[{ guess := gameState.possibleSolutions.headD []
         score := 0
         isPossibleSolution := true
         winProbabilities := some [(gameState.guesses.length + 1, 1)] }], 1⟩,
     gameState)
  else if gameState.possibleSolutions.length ≤ 3 then
    (⟨((sortSolutionsByDuplicates gameState.possibleSolutions).enum.map (fun p =>
        { guess := p.2
          score := (p.1 : ℝ)
          isPossibleSolution := true
          winProbabilities := some
            [(gameState.guesses.length + 1,
              1 / (gameState.possibleSolutions.length : ℚ)),
             (gameState.guesses.length + 2,
              if 1 < gameState.possibleSolutions.length then
                1 - 1 / (gameState.possibleSolutions.length : ℚ)
              else 0)] })) ++
      (if 1 < gameState.possibleSolutions.length then
        ((generateInformationMaximizingGuesses
            gameState.possibleSolutions).take 2).enum.map (fun p =>
          { guess := p.2
            score := ((100 + p.1 : ℕ) : ℝ)
            isPossibleSolution := false
            winProbabilities := some [(gameState.guesses.length + 2, 1)] })
       else []),
      gameState.possibleSolutions.length⟩,
     { gameState with
        possibleSolutions :=
          sortSolutionsByDuplicates gameState.possibleSolutions })
  else
    (⟨(qualitySuggestionList gameState).take
        (effectiveMaxSuggestions gameState maxSuggestions),
      gameState.possibleSolutions.length⟩,
     gameState)

/-- **C6.** `getBestNextGuesses` is deterministic: its result does not depend
on the ambient `Math.random` stream (the deterministic spread guesses
replaced random sampling), and identical game states and `maxSuggestions`
yield identical results — same suggestions, same order, same scores. -/
theorem getBestNextGuesses_deterministic (rng₁ rng₂ : ℕ → ℕ)
    (s₁ s₂ : GameState) (m₁ m₂ : ℕ) (hs : s₁ = s₂) (hm : m₁ = m₂) :
    getBestNextGuesses rng₁ s₁ m₁ = getBestNextGuesses rng₂ s₂ m₂ := by
  subst hs
  subst hm
  rfl

/-- Witness for C6 on a concrete state with two distinct random streams. -/
theorem getBestNextGuesses_deterministic_witness :
    ({ guesses := [], feedbacks := [], possibleSolutions := [] } : GameState) =
      { guesses := [], feedbacks := [], possibleSolutions := [] } ∧
    (5 : ℕ) = 5 ∧
    getBestNextGuesses (fun _ => 0)
        { guesses := [], feedbacks := [], possibleSolutions := [] } 5 =
      getBestNextGuesses (fun n => n + 7)
        { guesses := [], feedbacks := [], possibleSolutions := [] } 5 :=
  ⟨rfl, rfl,
    getBestNextGuesses_deterministic (fun _ => 0) (fun n => n + 7) _ _ 5 5 rfl rfl⟩

/-- **C7 (amended).** `getBestNextGuesses` never touches the session's
`guesses` and `feedbacks` lists and never adds or removes a candidate: the
session's `possibleSolutions` after the call is a permutation of the one
before.  It is *not* fully read-only: with 2 or 3 candidates left the branch
runs `possibleSolutions.sort(...)`, which reorders the caller's array in
place; for every other candidate count the state is returned untouched. -/
theorem getBestNextGuesses_state_frame (rng : ℕ → ℕ) (s : GameState) (m : ℕ) :
    (getBestNextGuesses rng s m).2.guesses = s.guesses ∧
    (getBestNextGuesses rng s m).2.feedbacks = s.feedbacks ∧
    (getBestNextGuesses rng s m).2.possibleSolutions.Perm s.possibleSolutions ∧
    ((s.possibleSolutions.length ≤ 1 ∨ 4 ≤ s.possibleSolutions.length) →
      (getBestNextGuesses rng s m).2 = s) := by
  unfold getBestNextGuesses
  by_cases h0 : s.possibleSolutions.length = 0
  · rw [if_pos h0]
    exact ⟨rfl, rfl, List.Perm.refl _, fun _ => rfl⟩
  · rw [if_neg h0]
    by_cases h1 : s.possibleSolutions.length = 1
    · rw [if_pos h1]
      exact ⟨rfl, rfl, List.Perm.refl _, fun _ => rfl⟩
    · rw [if_neg h1]
      by_cases h3 : s.possibleSolutions.length ≤ 3
      · rw [if_pos h3]
        refine ⟨rfl, rfl, List.mergeSort_perm _ _, ?_⟩
        intro hrange
        exfalso
        omega
      · rw [if_neg h3]
        exact ⟨rfl, rfl, List.Perm.refl _, fun _ => rfl⟩

/-- Witness for C7's amended theorem at a concrete two-candidate state. -/
theorem getBestNextGuesses_state_frame_witness :
    (getBestNextGuesses (fun _ => 0)
      { guesses := [], feedbacks := [],
        possibleSolutions := [[5, 5, 6, 7], [1, 2, 3, 4]] } 5).2.guesses = [] ∧
    (getBestNextGuesses (fun _ => 0)
      { guesses := [], feedbacks := [],
        possibleSolutions := [[5, 5, 6, 7], [1, 2, 3, 4]] } 5).2.possibleSolutions.Perm
      [[5, 5, 6, 7], [1, 2, 3, 4]] :=
  ⟨(getBestNextGuesses_state_frame (fun _ => 0) _ 5).1,
   (getBestNextGuesses_state_frame (fun _ => 0)
      { guesses := [], feedbacks := [],
        possibleSolutions := [[5, 5, 6, 7], [1, 2, 3, 4]] } 5).2.2.1⟩

unseal List.merge List.mergeSort in
theorem sortSolutionsByDuplicates_pair :
    sortSolutionsByDuplicates [[5, 5, 6, 7], [1, 2, 3, 4]] =
      [[1, 2, 3, 4], [5, 5, 6, 7]] := by decide

/-- Counterexample to C7 as stated: on a session whose two remaining
candidates are ordered `[[5,5,6,7], [1,2,3,4]]`, the call reorders the
session's `possibleSolutions` in place (the endgame branch's comparator puts
codes with more distinct digits first, so `[1,2,3,4]` — 4 distinct digits —
moves ahead of `[5,5,6,7]` — 3), and the session state after the call differs
from the state before it. -/
theorem getBestNextGuesses_mutates_counterexample :
    (getBestNextGuesses (fun _ => 0)
      { guesses := [], feedbacks := [],
        possibleSolutions := [[5, 5, 6, 7], [1, 2, 3, 4]] } 5).2 ≠
    { guesses := [], feedbacks := [],
      possibleSolutions := [[5, 5, 6, 7], [1, 2, 3, 4]] } := by
  unfold getBestNextGuesses
  rw [if_neg (by decide), if_neg (by decide), if_pos (by decide)]
  intro hcontra
  have hps := congrArg GameState.possibleSolutions hcontra
  simp only at hps
  rw [sortSolutionsByDuplicates_pair] at hps
  exact absurd hps (by decide)

/-! ### Claim C8: interaction of the quality filter with truncation

Facts about `jsRound`, `jsMinScore` and the sort relation `suggestionLE`
needed to evaluate the general branch of `getBestNextGuesses` on a concrete
5-candidate session. -/

theorem jsRound_zero : jsRound 0 = 0 := by
  unfold jsRound
  norm_num [Int.floor_eq_zero_iff]

theorem intCast_le_jsRound (k : ℤ) (x : ℝ) (h : (k : ℝ) ≤ x + 1 / 2) :
    (k : ℝ) ≤ jsRound x := by
  unfold jsRound
  exact_mod_cast Int.le_floor.mpr h

theorem suggestionLE_trans (a b c : Suggestion)
    (hab : suggestionLE a b) (hbc : suggestionLE b c) : suggestionLE a c := by
  unfold suggestionLE at *
  by_cases h1 : a.score = b.score <;> by_cases h2 : b.score = c.score
  · rw [if_pos h1] at hab
    rw [if_pos h2] at hbc
    rw [if_pos (h1.trans h2)]
    cases ha : a.isPossibleSolution <;> cases hb : b.isPossibleSolution <;>
      cases hc : c.isPossibleSolution <;> simp_all
  · rw [if_pos h1] at hab
    rw [if_neg h2] at hbc
    rw [if_neg (fun h => h2 (h1.symm.trans h))]
    rw [decide_eq_true_eq] at hbc ⊢
    linarith [h1.le]
  · rw [if_neg h1] at hab
    rw [if_pos h2] at hbc
    rw [if_neg (fun h => h1 (h.trans h2.symm))]
    rw [decide_eq_true_eq] at hab ⊢
    linarith [h2.le]
  · rw [if_neg h1] at hab
    rw [if_neg h2] at hbc
    rw [decide_eq_true_eq] at hab hbc
    have hac : a.score < c.score :=
      lt_of_le_of_lt (lt_of_le_of_ne hab h1).le (lt_of_le_of_ne hbc h2)
    rw [if_neg (ne_of_lt hac), decide_eq_true_eq]
    exact hac.le

theorem suggestionLE_total (a b : Suggestion) :
    suggestionLE a b || suggestionLE b a := by
  unfold suggestionLE
  by_cases h : a.score = b.score
  · rw [if_pos h, if_pos h.symm]
    cases a.isPossibleSolution <;> cases b.isPossibleSolution <;> simp
  · rw [if_neg h, if_neg (fun hba => h hba.symm)]
    rcases le_total a.score b.score with hle | hle <;> simp [hle]

theorem foldl_min_score_le_init (l : List Suggestion) (a : ℝ) :
    l.foldl (fun m t => min m t.score) a ≤ a := by
  induction l generalizing a with
  | nil => simp
  | cons t rest ih => exact le_trans (ih (min a t.score)) (min_le_left _ _)

theorem foldl_min_score_le_mem (l : List Suggestion) (a : ℝ) (s : Suggestion)
    (hs : s ∈ l) : l.foldl (fun m t => min m t.score) a ≤ s.score := by
  induction l generalizing a with
  | nil => simp at hs
  | cons t rest ih =>
      rcases List.mem_cons.mp hs with rfl | h
      · exact le_trans (foldl_min_score_le_init rest _) (min_le_right _ _)
      · exact ih _ h

theorem le_foldl_min_score (l : List Suggestion) (a b : ℝ) (hb : b ≤ a)
    (h : ∀ s ∈ l, b ≤ s.score) : b ≤ l.foldl (fun m t => min m t.score) a := by
  induction l generalizing a with
  | nil => simpa using hb
  | cons t rest ih =>
      refine ih (min a t.score) (le_min hb (h t (List.mem_cons_self _ _))) ?_
      exact fun s hs => h s (List.mem_cons_of_mem _ hs)

theorem jsMinScore_le_mem (l : List Suggestion) (s : Suggestion) (hs : s ∈ l) :
    jsMinScore l ≤ s.score := by
  cases l with
  | nil => simp at hs
  | cons t rest =>
      rcases List.mem_cons.mp hs with rfl | h
      · exact foldl_min_score_le_init rest _
      · exact foldl_min_score_le_mem rest _ _ h

theorem le_jsMinScore (l : List Suggestion) (b : ℝ) (hne : l ≠ [])
    (h : ∀ s ∈ l, b ≤ s.score) : b ≤ jsMinScore l := by
  cases l with
  | nil => exact absurd rfl hne
  | cons t rest =>
      exact le_foldl_min_score rest _ b (h t (List.mem_cons_self _ _))
        (fun s hs => h s (List.mem_cons_of_mem _ hs))

/-- The entropy branch of `calculateGuessScore`, unfolded. -/
theorem score_entropy_formula (guess : List ℕ) (sols : List (List ℕ))
    (h2 : 2 ≤ sols.length) (h10 : sols.length ≤ 10) :
    calculateGuessScore guess sols =
      jsRound ((Real.logb 2 (sols.length : ℝ) -
        entropyOfSizes (feedbackGroupSizes guess sols) sols.length) /
        Real.logb 2 (sols.length : ℝ) * 10) := by
  unfold calculateGuessScore
  rw [if_neg (by omega), if_pos h10]


/-! Concrete logarithm and entropy evaluations for the 5-candidate scenario. -/

theorem logb_two_four : Real.logb 2 4 = 2 := by
  rw [show (4 : ℝ) = 2 ^ (2 : ℕ) by norm_num, Real.logb_pow,
    Real.logb_self_eq_one (by norm_num)]
  norm_num

theorem logb_two_five_pos : 0 < Real.logb 2 5 :=
  Real.logb_pos (by norm_num) (by norm_num)

theorem logb_two_five_le_three : Real.logb 2 5 ≤ 3 := by
  have h8 : Real.logb 2 8 = 3 := by
    rw [show (8 : ℝ) = 2 ^ (3 : ℕ) by norm_num, Real.logb_pow,
      Real.logb_self_eq_one (by norm_num)]
    norm_num
  calc Real.logb 2 5 ≤ Real.logb 2 8 :=
        Real.logb_le_logb_of_le (by norm_num) (by norm_num) (by norm_num)
    _ = 3 := h8

theorem five_logb_five_le_twelve_logb_three :
    5 * Real.logb 2 5 ≤ 12 * Real.logb 2 3 := by
  have h1 : Real.logb 2 ((5 : ℝ) ^ (5 : ℕ)) ≤ Real.logb 2 ((3 : ℝ) ^ (12 : ℕ)) :=
    Real.logb_le_logb_of_le (by norm_num) (by positivity) (by norm_num)
  rw [Real.logb_pow, Real.logb_pow] at h1
  push_cast at h1
  linarith

theorem entropyOfSizes_uniform5 :
    entropyOfSizes [1, 1, 1, 1, 1] 5 = Real.logb 2 5 := by
  unfold entropyOfSizes
  norm_num
  rw [show (1 : ℝ) / 5 = ((5 : ℝ))⁻¹ by norm_num, Real.logb_inv]
  ring

theorem entropyOfSizes_one_four :
    entropyOfSizes [1, 4] 5 = Real.logb 2 5 - 8 / 5 := by
  unfold entropyOfSizes
  norm_num
  rw [show (1 : ℝ) / 5 = ((5 : ℝ))⁻¹ by norm_num, Real.logb_inv,
    Real.logb_div (by norm_num) (by norm_num), logb_two_four]
  ring

theorem entropyOfSizes_four_one :
    entropyOfSizes [4, 1] 5 = Real.logb 2 5 - 8 / 5 := by
  unfold entropyOfSizes
  norm_num
  rw [show (1 : ℝ) / 5 = ((5 : ℝ))⁻¹ by norm_num, Real.logb_inv,
    Real.logb_div (by norm_num) (by norm_num), logb_two_four]
  ring

theorem entropyOfSizes_one_one_three :
    entropyOfSizes [1, 1, 3] 5 = Real.logb 2 5 - 3 / 5 * Real.logb 2 3 := by
  unfold entropyOfSizes
  norm_num
  rw [show (1 : ℝ) / 5 = ((5 : ℝ))⁻¹ by norm_num, Real.logb_inv,
    Real.logb_div (by norm_num) (by norm_num)]
  ring

theorem entropyOfSizes_single5 : entropyOfSizes [5] 5 = 0 := by
  unfold entropyOfSizes
  norm_num [Real.logb_one]


theorem score_sizes_uniform5 (g : List ℕ) (sols : List (List ℕ))
    (hlen : sols.length = 5) (hsz : feedbackGroupSizes g sols = [1, 1, 1, 1, 1]) :
    calculateGuessScore g sols = 0 := by
  rw [score_entropy_formula g sols (by omega) (by omega), hsz, hlen,
    entropyOfSizes_uniform5]
  norm_num
  exact jsRound_zero

theorem score_sizes_one_four (g : List ℕ) (sols : List (List ℕ))
    (hlen : sols.length = 5)
    (hsz : feedbackGroupSizes g sols = [1, 4] ∨ feedbackGroupSizes g sols = [4, 1]) :
    (1 : ℝ) ≤ calculateGuessScore g sols := by
  have hM := logb_two_five_pos
  have hE : entropyOfSizes (feedbackGroupSizes g sols) 5 = Real.logb 2 5 - 8 / 5 := by
    rcases hsz with h | h
    · rw [h, entropyOfSizes_one_four]
    · rw [h, entropyOfSizes_four_one]
  rw [score_entropy_formula g sols (by omega) (by omega), hlen, hE]
  have h1 := intCast_le_jsRound 1
    ((Real.logb 2 ((5 : ℕ) : ℝ) - (Real.logb 2 5 - 8 / 5)) / Real.logb 2 ((5 : ℕ) : ℝ) * 10)
  norm_num at h1 ⊢
  apply h1
  have heq : (8 : ℝ) / 5 / Real.logb 2 5 * 10 = 16 / Real.logb 2 5 := by
    field_simp
    ring
  rw [heq]
  have h2 : (1 : ℝ) / 2 ≤ 16 / Real.logb 2 5 := by
    rw [div_le_div_iff₀ (by norm_num) hM]
    nlinarith [logb_two_five_le_three]
  linarith


theorem score_sizes_one_one_three (g : List ℕ) (sols : List (List ℕ))
    (hlen : sols.length = 5)
    (hsz : feedbackGroupSizes g sols = [1, 1, 3]) :
    (3 : ℝ) ≤ calculateGuessScore g sols := by
  have hM := logb_two_five_pos
  rw [score_entropy_formula g sols (by omega) (by omega), hlen, hsz,
    entropyOfSizes_one_one_three]
  have h1 := intCast_le_jsRound 3
    ((Real.logb 2 ((5 : ℕ) : ℝ) - (Real.logb 2 5 - 3 / 5 * Real.logb 2 3)) /
      Real.logb 2 ((5 : ℕ) : ℝ) * 10)
  norm_num at h1 ⊢
  apply h1
  have heq : (3 : ℝ) / 5 * Real.logb 2 3 / Real.logb 2 5 * 10 =
      6 * Real.logb 2 3 / Real.logb 2 5 := by
    field_simp
    ring
  rw [heq]
  have h2 : (5 : ℝ) / 2 ≤ 6 * Real.logb 2 3 / Real.logb 2 5 := by
    rw [div_le_div_iff₀ (by norm_num) hM]
    nlinarith [five_logb_five_le_twelve_logb_three]
  linarith

theorem score_sizes_single5 (g : List ℕ) (sols : List (List ℕ))
    (hlen : sols.length = 5)
    (hsz : feedbackGroupSizes g sols = [5]) :
    (3 : ℝ) ≤ calculateGuessScore g sols := by
  have hM := logb_two_five_pos
  rw [score_entropy_formula g sols (by omega) (by omega), hlen, hsz,
    entropyOfSizes_single5]
  have h1 := intCast_le_jsRound 3
    ((Real.logb 2 ((5 : ℕ) : ℝ) - 0) / Real.logb 2 ((5 : ℕ) : ℝ) * 10)
  norm_num at h1 ⊢
  exact h1



/-! The concrete C8 scenario: a session with five remaining candidates on
which the `maxSuggestions` truncation drops a still-possible code. -/

/-- The 5-candidate set of the C8 scenario. -/
def c8Sols : List (List ℕ) :=
  [[0, 0, 0, 0], [1, 1, 1, 1], [2, 2, 2, 2], [3, 3, 3, 3], [4, 4, 4, 4]]

/-- A session with those 5 candidates and one prior guess. -/
def c8State : GameState :=
  { guesses := [[9, 9, 9, 9]]
    feedbacks := [{ correct := 0, partialCount := 0 }]
    possibleSolutions := c8Sols }

/-- The candidate pool the general branch builds for `c8State`. -/
def c8Cands : List (List ℕ) :=
  [[0, 0, 0, 0], [1, 1, 1, 1], [2, 2, 2, 2], [3, 3, 3, 3], [4, 4, 4, 4],
   [0, 1, 2, 3], [0, 1, 5, 6], [5, 6, 7, 8]]

unseal List.merge List.mergeSort in
theorem c8_candList : candidateGuessList c8State = c8Cands := by decide

/-- The suggestion entry built for candidate `c` in the C8 scenario. -/
noncomputable def c8Entry (c : List ℕ) : Suggestion :=
  { guess := c
    score := calculateGuessScore c c8Sols
    isPossibleSolution := c8Sols.any (fun sol => jsSameGuess sol c)
    winProbabilities := some (calculateWinProbabilities c c8Sols 1 3) }

theorem c8_scored : scoredGuessList c8State = c8Cands.map c8Entry := by
  unfold scoredGuessList
  rw [c8_candList]
  rfl


theorem c8_score_info : calculateGuessScore [0, 1, 2, 3] c8Sols = 0 :=
  score_sizes_uniform5 _ _ (by decide) (by decide)

theorem c8_score_sols : ∀ c ∈ c8Sols, (1 : ℝ) ≤ calculateGuessScore c c8Sols := by
  intro c hc
  have hc' : c = [0, 0, 0, 0] ∨ c = [1, 1, 1, 1] ∨ c = [2, 2, 2, 2] ∨
      c = [3, 3, 3, 3] ∨ c = [4, 4, 4, 4] := by
    simpa [c8Sols] using hc
  rcases hc' with rfl | rfl | rfl | rfl | rfl
  · exact score_sizes_one_four _ _ (by decide) (Or.inl (by decide))
  · exact score_sizes_one_four _ _ (by decide) (Or.inr (by decide))
  · exact score_sizes_one_four _ _ (by decide) (Or.inr (by decide))
  · exact score_sizes_one_four _ _ (by decide) (Or.inr (by decide))
  · exact score_sizes_one_four _ _ (by decide) (Or.inr (by decide))

theorem c8_score_nonneg : ∀ c ∈ c8Cands, (0 : ℝ) ≤ calculateGuessScore c c8Sols := by
  intro c hc
  have hc' : c ∈ c8Sols ∨ c = [0, 1, 2, 3] ∨ c = [0, 1, 5, 6] ∨ c = [5, 6, 7, 8] := by
    simp only [c8Cands, c8Sols, List.mem_cons, List.not_mem_nil, or_false] at hc ⊢
    tauto
  rcases hc' with h | rfl | rfl | rfl
  · linarith [c8_score_sols c h]
  · rw [c8_score_info]
  · linarith [score_sizes_one_one_three [0, 1, 5, 6] c8Sols (by decide) (by decide)]
  · linarith [score_sizes_single5 [5, 6, 7, 8] c8Sols (by decide) (by decide)]


theorem c8_sorted_mem (e : Suggestion) :
    e ∈ sortedScoredGuesses c8State ↔ e ∈ c8Cands.map c8Entry := by
  rw [sortedScoredGuesses, List.mem_mergeSort, c8_scored]

theorem c8_entry_score (c : List ℕ) : (c8Entry c).score = calculateGuessScore c c8Sols := rfl

theorem c8_sorted_ne_nil : sortedScoredGuesses c8State ≠ [] := by
  apply List.ne_nil_of_length_pos
  rw [sortedScoredGuesses, List.length_mergeSort, c8_scored, List.length_map]
  decide

theorem c8_min_nonneg : 0 ≤ jsMinScore (sortedScoredGuesses c8State) := by
  apply le_jsMinScore _ _ c8_sorted_ne_nil
  intro s hs
  obtain ⟨c, hc, rfl⟩ := List.mem_map.mp ((c8_sorted_mem s).mp hs)
  rw [c8_entry_score]
  exact c8_score_nonneg c hc

theorem c8_e0_mem_sorted : c8Entry [0, 1, 2, 3] ∈ sortedScoredGuesses c8State :=
  (c8_sorted_mem _).mpr (List.mem_map_of_mem _ (by decide))

theorem c8_min_nonpos : jsMinScore (sortedScoredGuesses c8State) ≤ 0 := by
  have h := jsMinScore_le_mem _ _ c8_e0_mem_sorted
  rw [c8_entry_score, c8_score_info] at h
  exact h


theorem c8_keep_iff (s : Suggestion) :
    (s.isPossibleSolution ||
      decide (s.score ≤ (if c8State.possibleSolutions.length ≤ 10 then
        jsMinScore (sortedScoredGuesses c8State) + 2
      else jsMinScore (sortedScoredGuesses c8State) * 1.5))) = true ↔
    (s.isPossibleSolution = true ∨
      s.score ≤ jsMinScore (sortedScoredGuesses c8State) + 2) := by
  rw [if_pos (by decide)]
  simp

theorem c8_F_mem (e : Suggestion) :
    e ∈ qualitySuggestionList c8State ↔
      (e ∈ sortedScoredGuesses c8State ∧
        (e.isPossibleSolution = true ∨
          e.score ≤ jsMinScore (sortedScoredGuesses c8State) + 2)) := by
  unfold qualitySuggestionList
  rw [List.mem_filter, c8_keep_iff]

theorem c8_e0_mem_F :
    c8Entry [0, 1, 2, 3] ∈ qualitySuggestionList c8State := by
  rw [c8_F_mem]
  refine ⟨c8_e0_mem_sorted, Or.inr ?_⟩
  rw [c8_entry_score, c8_score_info]
  linarith [c8_min_nonneg]

theorem c8_F_guess (e : Suggestion) (he : e ∈ qualitySuggestionList c8State) :
    e.guess = [0, 1, 2, 3] ∨ e.guess ∈ c8Sols := by
  rw [c8_F_mem] at he
  obtain ⟨hs, hkeep⟩ := he
  obtain ⟨c, hc, rfl⟩ := List.mem_map.mp ((c8_sorted_mem _).mp hs)
  have hc' : c ∈ c8Sols ∨ c = [0, 1, 2, 3] ∨ c = [0, 1, 5, 6] ∨ c = [5, 6, 7, 8] := by
    simp only [c8Cands, c8Sols, List.mem_cons, List.not_mem_nil, or_false] at hc ⊢
    tauto
  rcases hc' with h | rfl | rfl | rfl
  · right
    exact h
  · left
    rfl
  · exfalso
    rcases hkeep with hp | hsc
    · have hfalse : (c8Entry [0, 1, 5, 6]).isPossibleSolution = false := by decide
      rw [hfalse] at hp
      exact Bool.false_ne_true hp
    · rw [c8_entry_score] at hsc
      have h3 := score_sizes_one_one_three [0, 1, 5, 6] c8Sols (by decide) (by decide)
      linarith [c8_min_nonpos]
  · exfalso
    rcases hkeep with hp | hsc
    · have hfalse : (c8Entry [5, 6, 7, 8]).isPossibleSolution = false := by decide
      rw [hfalse] at hp
      exact Bool.false_ne_true hp
    · rw [c8_entry_score] at hsc
      have h3 := score_sizes_single5 [5, 6, 7, 8] c8Sols (by decide) (by decide)
      linarith [c8_min_nonpos]

theorem c8_poss_count :
    ((qualitySuggestionList c8State).filter
      (fun s => s.isPossibleSolution)).length = 5 := by
  rw [← List.countP_eq_length_filter]
  unfold qualitySuggestionList
  rw [List.countP_filter]
  have hcongr : ∀ a ∈ sortedScoredGuesses c8State,
      ((fun s : Suggestion => s.isPossibleSolution) a &&
        (a.isPossibleSolution ||
          decide (a.score ≤ (if c8State.possibleSolutions.length ≤ 10 then
            jsMinScore (sortedScoredGuesses c8State) + 2
          else jsMinScore (sortedScoredGuesses c8State) * 1.5)))) = true ↔
      (fun s : Suggestion => s.isPossibleSolution) a = true := by
    intro a _
    cases h : a.isPossibleSolution <;> simp [h]
  rw [List.countP_congr hcongr, sortedScoredGuesses,
    (List.mergeSort_perm _ _).countP_eq, c8_scored, List.countP_map]
  decide


theorem c8_eff_max : effectiveMaxSuggestions c8State 5 = 5 := by
  unfold effectiveMaxSuggestions
  rw [if_pos (by decide), c8_poss_count]
  exact max_self 5

theorem c8_F_pairwise :
    (qualitySuggestionList c8State).Pairwise (fun a b => suggestionLE a b = true) := by
  apply List.Pairwise.sublist (List.filter_sublist _)
  exact List.sorted_mergeSort suggestionLE_trans suggestionLE_total _

theorem c8_out :
    (getBestNextGuesses (fun _ => 0) c8State 5).1.suggestions =
      (qualitySuggestionList c8State).take 5 := by
  unfold getBestNextGuesses
  rw [if_neg (by decide), if_neg (by decide), if_neg (by decide), c8_eff_max]

/-- Evaluating the engine on the C8 scenario: with five candidates left and
`maxSuggestions = 5`, some still-possible code is missing from the returned
suggestions (an information-maximizing non-candidate with a strictly better
score occupies one of the slots, and raising the cap to the number of
candidate suggestions does not prevent the last candidate from being cut). -/
theorem getBestNextGuesses_drops_candidate :
    ∃ c ∈ c8State.possibleSolutions,
      c ∉ ((getBestNextGuesses (fun _ => 0) c8State 5).1.suggestions.map
        (fun s => s.guess)) := by
  by_contra hcontra
  push_neg at hcontra
  rw [c8_out] at hcontra
  have hsubset : c8Sols ⊆ ((qualitySuggestionList c8State).take 5).map
      (fun s => s.guess) := fun c hc => hcontra c hc
  have hsp : List.Subperm c8Sols
      (((qualitySuggestionList c8State).take 5).map (fun s => s.guess)) :=
    List.Nodup.subperm (by decide) hsubset
  have hlen_le : (((qualitySuggestionList c8State).take 5).map
      (fun s => s.guess)).length ≤ 5 := by
    rw [List.length_map, List.length_take]
    omega
  have hperm : c8Sols.Perm (((qualitySuggestionList c8State).take 5).map
      (fun s => s.guess)) := by
    apply hsp.perm_of_length_le
    have hc5 : c8Sols.length = 5 := by decide
    omega
  have hGsub : ∀ x ∈ ((qualitySuggestionList c8State).take 5).map
      (fun s => s.guess), x ∈ c8Sols := fun x hx => hperm.mem_iff.mpr hx
  have he0_not_T : c8Entry [0, 1, 2, 3] ∉ (qualitySuggestionList c8State).take 5 := by
    intro hmem
    have hg := hGsub _ (List.mem_map_of_mem (fun s => s.guess) hmem)
    exact absurd hg (by decide)
  have he0_drop : c8Entry [0, 1, 2, 3] ∈ (qualitySuggestionList c8State).drop 5 := by
    have h := c8_e0_mem_F
    rw [← List.take_append_drop 5 (qualitySuggestionList c8State)] at h
    rcases List.mem_append.mp h with h' | h'
    · exact absurd h' he0_not_T
    · exact h'
  have hTlen : ((qualitySuggestionList c8State).take 5).length = 5 := by
    have := hperm.length_eq
    rw [List.length_map] at this
    simpa [c8Sols] using this.symm
  obtain ⟨t, ht⟩ := List.exists_mem_of_length_pos (by omega :
    0 < ((qualitySuggestionList c8State).take 5).length)
  have hcross : suggestionLE t (c8Entry [0, 1, 2, 3]) = true := by
    have hPW := c8_F_pairwise
    rw [← List.take_append_drop 5 (qualitySuggestionList c8State)] at hPW
    exact (List.pairwise_append.mp hPW).2.2 t ht _ he0_drop
  have htF : t ∈ qualitySuggestionList c8State := List.mem_of_mem_take ht
  obtain ⟨c, hc, rfl⟩ := List.mem_map.mp
    ((c8_sorted_mem t).mp ((c8_F_mem t).mp htF).1)
  have hcS : (c8Entry c).guess ∈ c8Sols :=
    hGsub _ (List.mem_map_of_mem (fun s => s.guess) ht)
  have hscore1 : (1 : ℝ) ≤ (c8Entry c).score := by
    rw [c8_entry_score]
    exact c8_score_sols c hcS
  have he0score : (c8Entry [0, 1, 2, 3]).score = 0 := c8_score_info
  unfold suggestionLE at hcross
  rw [he0score, if_neg (by intro h; rw [h] at hscore1; linarith),
    decide_eq_true_eq] at hcross
  linarith


end LockerBreaker
